import Mathlib

/-!
Verification of the commit-versioning engine (`GirhubTracker`) of the
kittyCrypto-gg server repository.  The definitions below are a shallow
embedding of `src/unnamed/part_004`: JS numbers are modelled as `Nat`,
strings as `String`, the fixed six-tuple of decimal digits as six named
fields, and the network/file-system boundary as explicit function
parameters describing the responses of the host.
-/

set_option maxHeartbeats 1000000

namespace GhTracker

/-- The six bump tiers of the tracker (source: `type BumpTier`, lines 8-14). -/
inductive BumpTier where
  | skip
  | major
  | feat
  | fix
  | refactor
  | tiny
deriving DecidableEq, Repr

/-- A decimal version: a major integer and six decimal places, left-to-right
(source: `type DecimalVersion`, lines 16-19).  The TS tuple
`[number, number, number, number, number, number]` is modelled as six named
fields `d0` .. `d5`. -/
structure DecimalVersion where
  major : Nat
  d0 : Nat
  d1 : Nat
  d2 : Nat
  d3 : Nat
  d4 : Nat
  d5 : Nat
deriving DecidableEq, Repr

/-- `clampDigit` (lines 350-356).  For `Nat` inputs the NaN / negative /
truncation branches of the JS original cannot fire, leaving the [0,9] clamp. -/
def clampDigit (n : Nat) : Nat :=
  if 9 < n then 9 else n

/-- Numeric value of a decimal digit character, as `parseInt(ch, 10)` yields
for a single `[0-9]` character (line 368). -/
def charDigit (c : Char) : Nat := c.toNat - 48

/-- `parseInt(str, 10)` on a non-empty all-digit string (line 366), modelled
exactly over `Nat` (JS loses precision beyond 2^53; the claims under
verification do not depend on that). -/
def natOfDigits (cs : List Char) : Nat :=
  cs.foldl (fun n c => 10 * n + charDigit c) 0

/-- `String.prototype.trim` modelled on character lists (whitespace is
`Char.isWhitespace`; the JS original also strips a few exotic Unicode spaces,
irrelevant here). -/
def trimChars (cs : List Char) : List Char :=
  ((cs.dropWhile Char.isWhitespace).reverse.dropWhile Char.isWhitespace).reverse

/-- The shape test of the regex `^(\d+)(?:\.([0-9]+))?$` (line 360): a
non-empty run of digits, optionally followed by `.` and a non-empty run of
digits; returns the integer part and the (possibly empty) fraction part. -/
def versionShape (cs : List Char) : Option (List Char × List Char) :=
  let ip := cs.takeWhile Char.isDigit
  let rest := cs.dropWhile Char.isDigit
  if ip.isEmpty then none
  else
    match rest with
    | [] => some (ip, [])
    | '.' :: fr => if fr.isEmpty || !(fr.all Char.isDigit) then none else some (ip, fr)
    | _ => none

/-- Core of `parseDecimalVersion` (lines 358-384) after trimming: on a
non-matching input return `major = 0` with all-zero digits; otherwise keep the
first six fraction digits, zero-pad on the right, and clamp each digit. -/
def parseCore (cs : List Char) : DecimalVersion :=
  match versionShape cs with
  | none => ⟨0, 0, 0, 0, 0, 0, 0⟩
  | some (ip, fr) =>
    let digitsRaw := fr.map charDigit
    let taken := digitsRaw.take 6
    let padded := taken ++ List.replicate (6 - taken.length) 0
    ⟨natOfDigits ip,
      clampDigit (padded.getD 0 0), clampDigit (padded.getD 1 0),
      clampDigit (padded.getD 2 0), clampDigit (padded.getD 3 0),
      clampDigit (padded.getD 4 0), clampDigit (padded.getD 5 0)⟩

/-- `parseDecimalVersion` (lines 358-384): trim, then parse. -/
def parseDecimalVersion (version : String) : DecimalVersion :=
  parseCore (trimChars version.toList)

/-- The digit tuple of a version as a list, left-to-right. -/
def digitsList (v : DecimalVersion) : List Nat :=
  [v.d0, v.d1, v.d2, v.d3, v.d4, v.d5]

/-- `formatDecimalVersion` (lines 386-402): render `major`, a dot, then the
digits up to the last non-zero digit but always at least two digits
(`minDigits = 2`, the "always show at least feat+fix" rule). -/
def formatDecimalVersion (v : DecimalVersion) : String :=
  let ds := digitsList v
  let lastNonZeroCount := (ds.reverse.dropWhile (· == 0)).length
  let used := max 2 lastNonZeroCount
  let frac := String.join ((ds.take used).map (fun d => Nat.repr d))
  Nat.repr v.major ++ "." ++ frac

/-- A version with the given major and all six digits zero (the
`{major, digits: [0,0,0,0,0,0]}` literals of lines 409, 414). -/
def zeroDigits (m : Nat) : DecimalVersion := ⟨m, 0, 0, 0, 0, 0, 0⟩

/-- The zero-finer-digits / increment / leftward-carry body of
`bumpDecimalVersion` (lines 428-445) specialised to target digit index 0
(`tierToIndex feat = 0`): digits 1-5 are zeroed, digit 0 is incremented and,
when it exceeds 9, reset to 0 with the carry going into `major`. -/
def bumpAt0 (v : DecimalVersion) : DecimalVersion :=
  if v.d0 + 1 ≤ 9 then ⟨v.major, v.d0 + 1, 0, 0, 0, 0, 0⟩
  else ⟨v.major + 1, 0, 0, 0, 0, 0, 0⟩

/-- Lines 428-445 specialised to target digit index 1 (`tierToIndex fix = 1`). -/
def bumpAt1 (v : DecimalVersion) : DecimalVersion :=
  if v.d1 + 1 ≤ 9 then ⟨v.major, v.d0, v.d1 + 1, 0, 0, 0, 0⟩
  else if v.d0 + 1 ≤ 9 then ⟨v.major, v.d0 + 1, 0, 0, 0, 0, 0⟩
  else ⟨v.major + 1, 0, 0, 0, 0, 0, 0⟩

/-- Lines 428-445 specialised to target digit index 2
(`tierToIndex refactor = 2`). -/
def bumpAt2 (v : DecimalVersion) : DecimalVersion :=
  if v.d2 + 1 ≤ 9 then ⟨v.major, v.d0, v.d1, v.d2 + 1, 0, 0, 0⟩
  else if v.d1 + 1 ≤ 9 then ⟨v.major, v.d0, v.d1 + 1, 0, 0, 0, 0⟩
  else if v.d0 + 1 ≤ 9 then ⟨v.major, v.d0 + 1, 0, 0, 0, 0, 0⟩
  else ⟨v.major + 1, 0, 0, 0, 0, 0, 0⟩

/-- Lines 428-445 specialised to target digit index 5 (`tierToIndex tiny = 5`). -/
def bumpAt5 (v : DecimalVersion) : DecimalVersion :=
  if v.d5 + 1 ≤ 9 then ⟨v.major, v.d0, v.d1, v.d2, v.d3, v.d4, v.d5 + 1⟩
  else if v.d4 + 1 ≤ 9 then ⟨v.major, v.d0, v.d1, v.d2, v.d3, v.d4 + 1, 0⟩
  else if v.d3 + 1 ≤ 9 then ⟨v.major, v.d0, v.d1, v.d2, v.d3 + 1, 0, 0⟩
  else if v.d2 + 1 ≤ 9 then ⟨v.major, v.d0, v.d1, v.d2 + 1, 0, 0, 0⟩
  else if v.d1 + 1 ≤ 9 then ⟨v.major, v.d0, v.d1 + 1, 0, 0, 0, 0⟩
  else if v.d0 + 1 ≤ 9 then ⟨v.major, v.d0 + 1, 0, 0, 0, 0, 0⟩
  else ⟨v.major + 1, 0, 0, 0, 0, 0, 0⟩

/-- `bumpDecimalVersion` (lines 404-448).  `skip` is the identity; a pending
README major larger than the current major resyncs the base to
`{major := m, digits := 0}`; `major` bumps the integer part (unless the
resync already did); the remaining tiers run the zero-finer / increment /
carry loop, here unrolled per tier according to
`tierToIndex = {feat: 0, fix: 1, refactor: 2, tiny: 5}` (lines 419-424). -/
def bumpDecimalVersion (base : DecimalVersion) (tier : BumpTier)
    (commitReadmeMajor : Option Nat) : DecimalVersion :=
  match tier with
  | .skip => base
  | .major =>
    match commitReadmeMajor with
    | some m => if base.major < m then zeroDigits m else zeroDigits (base.major + 1)
    | none => zeroDigits (base.major + 1)
  | t =>
    let baseSynced :=
      match commitReadmeMajor with
      | some m => if base.major < m then zeroDigits m else base
      | none => base
    match t with
    | .feat => bumpAt0 baseSynced
    | .fix => bumpAt1 baseSynced
    | .refactor => bumpAt2 baseSynced
    | .tiny => bumpAt5 baseSynced
    | _ => base

/-- Mixed-radix value of `major` together with digits 0..0: `major * 10 + d0`.
Used to state that a bump at digit 0 is exactly `+1` on this value. -/
def val0 (v : DecimalVersion) : Nat := 10 * v.major + v.d0

/-- Mixed-radix value of `major` together with digits 0..1. -/
def val1 (v : DecimalVersion) : Nat := 100 * v.major + 10 * v.d0 + v.d1

/-- Mixed-radix value of `major` together with digits 0..2. -/
def val2 (v : DecimalVersion) : Nat :=
  1000 * v.major + 100 * v.d0 + 10 * v.d1 + v.d2

/-- Mixed-radix value of `major` together with all six digits. -/
def val5 (v : DecimalVersion) : Nat :=
  1000000 * v.major + 100000 * v.d0 + 10000 * v.d1 + 1000 * v.d2 +
    100 * v.d3 + 10 * v.d4 + v.d5

/-- C1 counterexample: the claim's instance "bumping refactor on `"3.9"`
yields `"4.0"`" is false on the code: `refactor` targets digit index 2, so
the result is `"3.901"`. -/
theorem c1_refactor_on_3_9_gives_3_901 :
    formatDecimalVersion
        (bumpDecimalVersion (parseDecimalVersion "3.9") BumpTier.refactor none) = "3.901"
    ∧ ("3.901" : String) ≠ "4.0" := by
  constructor
  · decide
  · decide

/-- C1 (amended): the carrying tiers of the code are `feat`, `fix`,
`refactor` and `tiny`, at digit indices 0, 1, 2 and 5 of the six digits
(there is no `minor` tier).  For a version whose digits are in [0,9], each
such bump zeroes all digits finer than the tier's digit and adds exactly one
to the mixed-radix number formed by `major` and the digits up to the tier's
digit — i.e. it increments the tier's digit with leftward carry, a digit
exceeding 9 resetting to 0 and incrementing the digit to its left, overflow
of digit 0 incrementing `major` and leaving every digit zero.  Bumping
`refactor` on `"3.9"` yields `"3.901"`; the analogue of the claim's example
at digit index 0 is `feat`, and bumping `feat` on `"3.9"` yields `"4.00"`. -/
theorem c1_carrying_tiers_floor_then_carry (v : DecimalVersion)
    (h0 : v.d0 ≤ 9) (h1 : v.d1 ≤ 9) (h2 : v.d2 ≤ 9)
    (h3 : v.d3 ≤ 9) (h4 : v.d4 ≤ 9) (h5 : v.d5 ≤ 9) :
    (val0 (bumpDecimalVersion v BumpTier.feat none) = val0 v + 1
      ∧ (bumpDecimalVersion v BumpTier.feat none).d1 = 0
      ∧ (bumpDecimalVersion v BumpTier.feat none).d2 = 0
      ∧ (bumpDecimalVersion v BumpTier.feat none).d3 = 0
      ∧ (bumpDecimalVersion v BumpTier.feat none).d4 = 0
      ∧ (bumpDecimalVersion v BumpTier.feat none).d5 = 0)
    ∧ (val1 (bumpDecimalVersion v BumpTier.fix none) = val1 v + 1
      ∧ (bumpDecimalVersion v BumpTier.fix none).d2 = 0
      ∧ (bumpDecimalVersion v BumpTier.fix none).d3 = 0
      ∧ (bumpDecimalVersion v BumpTier.fix none).d4 = 0
      ∧ (bumpDecimalVersion v BumpTier.fix none).d5 = 0)
    ∧ (val2 (bumpDecimalVersion v BumpTier.refactor none) = val2 v + 1
      ∧ (bumpDecimalVersion v BumpTier.refactor none).d3 = 0
      ∧ (bumpDecimalVersion v BumpTier.refactor none).d4 = 0
      ∧ (bumpDecimalVersion v BumpTier.refactor none).d5 = 0)
    ∧ val5 (bumpDecimalVersion v BumpTier.tiny none) = val5 v + 1
    ∧ (v.d0 = 9 → v.d1 = 9 → v.d2 = 9 → v.d3 = 9 → v.d4 = 9 → v.d5 = 9 →
        bumpDecimalVersion v BumpTier.tiny none = zeroDigits (v.major + 1))
    ∧ formatDecimalVersion
        (bumpDecimalVersion (parseDecimalVersion "3.9") BumpTier.refactor none) = "3.901"
    ∧ formatDecimalVersion
        (bumpDecimalVersion (parseDecimalVersion "3.9") BumpTier.feat none) = "4.00" := by
  obtain ⟨m, a, b, c, d, e, f⟩ := v
  simp only at h0 h1 h2 h3 h4 h5
  refine ⟨?_, ?_, ?_, ?_, ?_, by decide, by decide⟩ <;>
    simp only [bumpDecimalVersion, bumpAt0, bumpAt1, bumpAt2, bumpAt5,
      val0, val1, val2, val5, zeroDigits] <;>
    split_ifs <;> simp_all <;> omega

/-- C1 witness: the general carry theorem applied at the all-nines version
`⟨3, 9, 9, 9, 9, 9, 9⟩`. -/
theorem c1_carrying_tiers_floor_then_carry_witness :
    (9 : Nat) ≤ 9 ∧
      (val5 (bumpDecimalVersion ⟨3, 9, 9, 9, 9, 9, 9⟩ BumpTier.tiny none) =
          val5 ⟨3, 9, 9, 9, 9, 9, 9⟩ + 1
        ∧ bumpDecimalVersion ⟨3, 9, 9, 9, 9, 9, 9⟩ BumpTier.tiny none = zeroDigits 4) :=
  ⟨by decide,
    (c1_carrying_tiers_floor_then_carry ⟨3, 9, 9, 9, 9, 9, 9⟩
        (by decide) (by decide) (by decide) (by decide) (by decide) (by decide)).2.2.2.1,
    (c1_carrying_tiers_floor_then_carry ⟨3, 9, 9, 9, 9, 9, 9⟩
        (by decide) (by decide) (by decide) (by decide) (by decide) (by decide)).2.2.2.2.1
      (by decide) (by decide) (by decide) (by decide) (by decide) (by decide)⟩

/-- C2 counterexample: on the version `⟨1, 9, 9, 0, 0, 0, 0⟩`, whose feat
digit is already 9 (digit index 0 in the code; index 1 also reads 9, so the
input refutes the claim under either digit-numbering), the `feat` bump is not
a no-op: it carries into `major`, producing `⟨2, 0, 0, 0, 0, 0, 0⟩`, and it
zeroes the trailing digits rather than leaving them untouched. -/
theorem c2_feat_at_nine_is_not_noop :
    bumpDecimalVersion ⟨1, 9, 9, 0, 0, 0, 0⟩ BumpTier.feat none = ⟨2, 0, 0, 0, 0, 0, 0⟩
    ∧ bumpDecimalVersion ⟨1, 9, 9, 0, 0, 0, 0⟩ BumpTier.feat none ≠ ⟨1, 9, 9, 0, 0, 0, 0⟩ := by
  decide

/-- C2 (amended): `feat` does carry, exactly like the other non-`major`
tiers: it targets digit index 0, zeroes all trailing digits (1-5), and
increments digit 0; when digit 0 is already 9 the bump carries into `major`
and yields `major + 1` with all digits zero — it is never a no-op. -/
theorem c2_feat_bump_characterisation (v : DecimalVersion) (h0 : v.d0 ≤ 9) :
    bumpDecimalVersion v BumpTier.feat none =
      if v.d0 = 9 then ⟨v.major + 1, 0, 0, 0, 0, 0, 0⟩
      else ⟨v.major, v.d0 + 1, 0, 0, 0, 0, 0⟩ := by
  obtain ⟨m, a, b, c, d, e, f⟩ := v
  simp only at h0
  simp only [bumpDecimalVersion, bumpAt0]
  split_ifs <;> simp_all <;> omega

/-- C2 witness: the characterisation applied at `⟨1, 9, 9, 0, 0, 0, 0⟩`. -/
theorem c2_feat_bump_characterisation_witness :
    (9 : Nat) ≤ 9 ∧
      bumpDecimalVersion ⟨1, 9, 9, 0, 0, 0, 0⟩ BumpTier.feat none =
        (if (9 : Nat) = 9 then ⟨2, 0, 0, 0, 0, 0, 0⟩
          else (⟨1, 9 + 1, 0, 0, 0, 0, 0⟩ : DecimalVersion)) :=
  ⟨by decide, c2_feat_bump_characterisation ⟨1, 9, 9, 0, 0, 0, 0⟩ (by decide)⟩

/-- Does `sub` occur at the head of `hay`? (helper for the substring test) -/
def matchesAt : List Char → List Char → Bool
  | _, [] => true
  | [], _ :: _ => false
  | a :: hay, b :: sub => a == b && matchesAt hay sub

/-- `String.prototype.includes` modelled on character lists. -/
def containsL : List Char → List Char → Bool
  | [], sub => sub.isEmpty
  | a :: hay, sub => matchesAt (a :: hay) sub || containsL hay sub

/-- `message.toLowerCase()` (line 456) as a character list (ASCII lowering;
the keyword tags under test are all ASCII). -/
def lowerOf (message : String) : List Char :=
  message.toList.map Char.toLower

/-- The explicit skip markers of `decideTierFromMessage` (line 458). -/
def hasSkipMarker (message : String) : Bool :=
  let lower := lowerOf message
  containsL lower "!skip".toList || containsL lower "!skipver".toList ||
    containsL lower "!noversion".toList

/-- `has(tag)` (line 460): the lowercased message contains `"!" + tag`. -/
def hasTag (lower : List Char) (tag : String) : Bool :=
  containsL lower ('!' :: tag.toList)

/-- The `major` keyword family of `decideTierFromMessage` (line 462). -/
def hasMajorTag (message : String) : Bool :=
  let lower := lowerOf message
  hasTag lower "major" || hasTag lower "breaking" || hasTag lower "break" ||
    hasTag lower "breaking-change" || hasTag lower "api-break" ||
    hasTag lower "schema-break" || hasTag lower "remove"

/-- The `feat` keyword family (line 463); note that `minor` and `add` belong
to this family in the code. -/
def hasFeatTag (message : String) : Bool :=
  let lower := lowerOf message
  hasTag lower "feat" || hasTag lower "feature" || hasTag lower "minor" ||
    hasTag lower "add" || hasTag lower "new" || hasTag lower "enhance" ||
    hasTag lower "extend"

/-- The `fix` keyword family (line 464). -/
def hasFixTag (message : String) : Bool :=
  let lower := lowerOf message
  hasTag lower "fix" || hasTag lower "bug" || hasTag lower "bugfix" ||
    hasTag lower "patch" || hasTag lower "hotfix" || hasTag lower "security" ||
    hasTag lower "regression" || hasTag lower "stability"

/-- The `refactor` keyword family (line 465). -/
def hasRefactorTag (message : String) : Bool :=
  let lower := lowerOf message
  hasTag lower "refactor" || hasTag lower "perf" || hasTag lower "optimise" ||
    hasTag lower "cleanup" || hasTag lower "internal" || hasTag lower "techdebt"

/-- The `tiny` keyword family (lines 467-473). -/
def hasTinyTag (message : String) : Bool :=
  let lower := lowerOf message
  hasTag lower "docs" || hasTag lower "doc" || hasTag lower "readme" ||
    hasTag lower "comment" || hasTag lower "comments" || hasTag lower "typo" ||
    hasTag lower "test" || hasTag lower "tests" || hasTag lower "qa" ||
    hasTag lower "build" || hasTag lower "ci" || hasTag lower "deps" ||
    hasTag lower "dep" || hasTag lower "bump" || hasTag lower "upgrade" ||
    hasTag lower "tooling" || hasTag lower "style" || hasTag lower "format" ||
    hasTag lower "lint" || hasTag lower "prettier" || hasTag lower "eslint" ||
    hasTag lower "chore" || hasTag lower "meta" || hasTag lower "housekeeping"

/-- `decideTierFromMessage` (lines 455-476): skip markers first, then the
keyword families in source order `major`, `feat`, `fix`, `refactor`, `tiny`;
`null` (here `none`) when nothing matches. -/
def decideTierFromMessage (message : String) : Option BumpTier :=
  if hasSkipMarker message then some .skip
  else if hasMajorTag message then some .major
  else if hasFeatTag message then some .feat
  else if hasFixTag message then some .fix
  else if hasRefactorTag message then some .refactor
  else if hasTinyTag message then some .tiny
  else none

/-- C5 counterexample: the message `"!refactor !feat"` contains a
refactor/perf-family keyword and a feature-family keyword and no
higher-priority marker, so under the claim's priority order
(`refactor/perf > feature/add`) the classifier would return `refactor`; the
code checks the `feat` family before the `refactor` family and returns
`feat`. -/
theorem c5_refactor_and_feat_classifies_feat :
    decideTierFromMessage "!refactor !feat" = some BumpTier.feat
    ∧ hasRefactorTag "!refactor !feat" = true
    ∧ hasSkipMarker "!refactor !feat" = false
    ∧ hasMajorTag "!refactor !feat" = false
    ∧ some BumpTier.feat ≠ some BumpTier.refactor := by
  refine ⟨by decide, by decide, by decide, by decide, by decide⟩

/-- C5 (amended): the classifier returns `skip` exactly when an explicit skip
marker is present (checked first); otherwise the priority order of the
keyword families is `major/breaking > feat/feature/minor/add >
fix/bug > refactor/perf > docs/chore/tiny` — the `feat` family (which also
holds `minor` and `add`) outranks `fix` and `refactor`, and there is no
separate `minor`/`tweak` family.  First match by priority wins, not first
occurrence in the text: the result depends only on which families are
present in the message. -/
theorem c5_decide_tier_priority (msg : String) :
    (decideTierFromMessage msg = some BumpTier.skip ↔ hasSkipMarker msg = true)
    ∧ (decideTierFromMessage msg = some BumpTier.major ↔
        (hasSkipMarker msg = false ∧ hasMajorTag msg = true))
    ∧ (decideTierFromMessage msg = some BumpTier.feat ↔
        (hasSkipMarker msg = false ∧ hasMajorTag msg = false ∧ hasFeatTag msg = true))
    ∧ (decideTierFromMessage msg = some BumpTier.fix ↔
        (hasSkipMarker msg = false ∧ hasMajorTag msg = false ∧
          hasFeatTag msg = false ∧ hasFixTag msg = true))
    ∧ (decideTierFromMessage msg = some BumpTier.refactor ↔
        (hasSkipMarker msg = false ∧ hasMajorTag msg = false ∧
          hasFeatTag msg = false ∧ hasFixTag msg = false ∧ hasRefactorTag msg = true))
    ∧ (decideTierFromMessage msg = some BumpTier.tiny ↔
        (hasSkipMarker msg = false ∧ hasMajorTag msg = false ∧
          hasFeatTag msg = false ∧ hasFixTag msg = false ∧
          hasRefactorTag msg = false ∧ hasTinyTag msg = true))
    ∧ (decideTierFromMessage msg = none ↔
        (hasSkipMarker msg = false ∧ hasMajorTag msg = false ∧
          hasFeatTag msg = false ∧ hasFixTag msg = false ∧
          hasRefactorTag msg = false ∧ hasTinyTag msg = false))
    ∧ (∀ msg2 : String,
        hasSkipMarker msg = hasSkipMarker msg2 →
        hasMajorTag msg = hasMajorTag msg2 →
        hasFeatTag msg = hasFeatTag msg2 →
        hasFixTag msg = hasFixTag msg2 →
        hasRefactorTag msg = hasRefactorTag msg2 →
        hasTinyTag msg = hasTinyTag msg2 →
        decideTierFromMessage msg = decideTierFromMessage msg2) := by
  constructor
  · unfold decideTierFromMessage
    split_ifs <;> simp_all
  constructor
  · unfold decideTierFromMessage
    split_ifs <;> simp_all
  constructor
  · unfold decideTierFromMessage
    split_ifs <;> simp_all
  constructor
  · unfold decideTierFromMessage
    split_ifs <;> simp_all
  constructor
  · unfold decideTierFromMessage
    split_ifs <;> simp_all
  constructor
  · unfold decideTierFromMessage
    split_ifs <;> simp_all
  constructor
  · unfold decideTierFromMessage
    split_ifs <;> simp_all
  · intro msg2 e1 e2 e3 e4 e5 e6
    unfold decideTierFromMessage
    rw [e1, e2, e3, e4, e5, e6]

/-- C5 witness: the priority characterisation applied at
`"!refactor !feat"`, whose family presences are discharged concretely. -/
theorem c5_decide_tier_priority_witness :
    decideTierFromMessage "!refactor !feat" = some BumpTier.feat
    ∧ decideTierFromMessage "!refactor !feat" = decideTierFromMessage "!feat !refactor" :=
  ⟨((c5_decide_tier_priority "!refactor !feat").2.2.1).mpr
      ⟨by decide, by decide, by decide⟩,
    (c5_decide_tier_priority "!refactor !feat").2.2.2.2.2.2.2 "!feat !refactor"
      (by decide) (by decide) (by decide) (by decide) (by decide) (by decide)⟩

/-- The outcome of the per-commit diff request made by `fetchDiff`
(lines 974-997): either a non-OK response, or an OK response with a body. -/
inductive DiffResp where
  | fail
  | ok (body : String)

/-- The fixed explanatory string of line 993. -/
def diffPlaceholder : String :=
  "Diff is empty or too large to fetch from GitHub API. It may be truncated or omitted due to size limits. Please see the commit on GitHub for details."

/-- `fetchDiff` (lines 974-997): a non-OK response is logged and yields the
empty string (line 987); an OK response whose body trims to the empty string
yields the fixed placeholder (line 993); otherwise the body is returned. -/
def fetchDiff (resp : DiffResp) : String :=
  match resp with
  | .fail => ""
  | .ok body => if (trimChars body.toList).isEmpty then diffPlaceholder else body

/-- C9 counterexample: when the diff fetch fails (non-OK response),
`fetchDiff` returns the empty string, not the fixed explanatory placeholder
the claim promises. -/
theorem c9_failed_fetch_returns_empty_not_placeholder :
    fetchDiff DiffResp.fail = "" ∧ fetchDiff DiffResp.fail ≠ diffPlaceholder := by
  refine ⟨rfl, by decide⟩

/-- C9 (amended): `fetchDiff` is total (never throws): a failed fetch returns
the empty string, a successful fetch whose body is empty or whitespace-only
returns the fixed explanatory placeholder, and any other successful fetch
returns the body unchanged. -/
theorem c9_fetch_diff_total_behaviour (body : String) :
    fetchDiff DiffResp.fail = ""
    ∧ (trimChars body.toList = [] →
        fetchDiff (DiffResp.ok body) = diffPlaceholder)
    ∧ (trimChars body.toList ≠ [] →
        fetchDiff (DiffResp.ok body) = body) := by
  refine ⟨rfl, ?_, ?_⟩ <;> intro h <;> simp only [String.toList] at h <;>
    simp [fetchDiff, h]

/-- C9 witness: the behaviour theorem applied at a whitespace-only body and
at a non-blank body. -/
theorem c9_fetch_diff_total_behaviour_witness :
    fetchDiff DiffResp.fail = ""
    ∧ fetchDiff (DiffResp.ok "  ") = diffPlaceholder
    ∧ fetchDiff (DiffResp.ok "x") = "x" :=
  ⟨(c9_fetch_diff_total_behaviour "  ").1,
    (c9_fetch_diff_total_behaviour "  ").2.1 (by decide),
    (c9_fetch_diff_total_behaviour "x").2.2 (by decide)⟩

/-- One attempt of the regex `/!setver\s*(?:=|:)\s*(\d+(?:\.\d+)?)/i`
(line 451) at the head of `cs`: a case-insensitive `!setver`, optional
whitespace, `=` or `:`, optional whitespace, then the captured digits with an
optional `.digits` tail (the optional group matching greedily and falling
back to the bare integer when no digit follows the dot). -/
def setVerAt (cs : List Char) : Option String :=
  if matchesAt (cs.map Char.toLower) "!setver".toList then
    let rest := (cs.drop 7).dropWhile Char.isWhitespace
    match rest with
    | c :: rest2 =>
      if c == '=' || c == ':' then
        let rest3 := rest2.dropWhile Char.isWhitespace
        let ip := rest3.takeWhile Char.isDigit
        if ip.isEmpty then none
        else
          match rest3.dropWhile Char.isDigit with
          | '.' :: fr =>
            let fp := fr.takeWhile Char.isDigit
            if fp.isEmpty then some (String.mk ip)
            else some (String.mk (ip ++ '.' :: fp))
          | _ => some (String.mk ip)
      else none
    | [] => none
  else none

/-- Leftmost-match search of the `!setver` regex over the message. -/
def scanSetVer : List Char → Option String
  | [] => none
  | c :: rest =>
    match setVerAt (c :: rest) with
    | some s => some s
    | none => scanSetVer rest

/-- `extractSetVersion` (lines 450-453). -/
def extractSetVersion (message : String) : Option String :=
  scanSetVer message.toList

/-- The per-commit record written to the ledger (source: `type CommitSummary`,
lines 29-37). -/
structure CommitSummary where
  sha : String
  author : String
  date : String
  message : String
  url : String
  diff : String
  version : String
deriving DecidableEq, Repr

/-- A commit item as it leaves `normaliseCommitItems` (lines 208-242): the
nested `commit.message` / `commit.author.name` / `commit.author.date` fields
of `GitHubCommit` (lines 49-59) flattened, with the `|| ''` defaults of the
call sites already applied. -/
structure GHItem where
  sha : String
  author : String
  date : String
  message : String
  url : String
deriving DecidableEq, Repr

/-- The body of the per-commit loop of `getCommits` (lines 627-647) for one
commit: a parsable `!setver` directive sets the running version to the parsed
value; otherwise the message classifier decides the tier and, when it
abstains, the external classifier `llm` (the `decideTierWithLlm` boundary) is
consulted; the bump is forced to the commit's README major when that is
positive.  Returns the new running version and the commit with its recorded
version. -/
def trackStep (llm : String → String → BumpTier) (cur : DecimalVersion)
    (c : CommitSummary) : DecimalVersion × CommitSummary :=
  let commitReadmeMajor := (parseDecimalVersion c.version).major
  let forcedMajor := if 0 < commitReadmeMajor then some commitReadmeMajor else none
  match extractSetVersion c.message with
  | some sv =>
    let cur2 := parseDecimalVersion sv
    (cur2, { c with version := formatDecimalVersion cur2 })
  | none =>
    let tier :=
      match decideTierFromMessage c.message with
      | some t => t
      | none => llm c.message c.diff
    let cur2 := bumpDecimalVersion cur tier forcedMajor
    (cur2, { c with version := formatDecimalVersion cur2 })

/-- The per-commit loop of `getCommits` (lines 625-647) over a chronological
list of new commits, threading the running version. -/
def trackProcess (llm : String → String → BumpTier) :
    DecimalVersion → List CommitSummary → List CommitSummary
  | _, [] => []
  | cur, c :: rest =>
    (trackStep llm cur c).2 :: trackProcess llm (trackStep llm cur c).1 rest

/-- The per-commit body of the replay loop of `rebuildAllHistory`
(lines 755-870), reduced to its versioning effect: `!setver` sets the running
version, otherwise classify (message tags first, then the external
classifier) and bump, forcing the README major read at the commit's own
snapshot when positive; the commit is appended to `pending` with the
resulting version. -/
def replayStep (llm : String → String → BumpTier) (cur : DecimalVersion)
    (it : GHItem) (diff : String) (commitMajor : Nat) :
    DecimalVersion × CommitSummary :=
  match extractSetVersion it.message with
  | some sv =>
    let cur2 := parseDecimalVersion sv
    (cur2, ⟨it.sha, it.author, it.date, it.message, it.url, diff,
      formatDecimalVersion cur2⟩)
  | none =>
    let tier :=
      match decideTierFromMessage it.message with
      | some t => t
      | none => llm it.message diff
    let cur2 := bumpDecimalVersion cur tier
      (if 0 < commitMajor then some commitMajor else none)
    (cur2, ⟨it.sha, it.author, it.date, it.message, it.url, diff,
      formatDecimalVersion cur2⟩)

/-- A forced README major that does not exceed the current major leaves the
bump identical to an unforced bump (lines 407-410: `needsMajorSync` is false,
and for the `major` tier line 413 is not taken). -/
theorem bump_forced_le (cur : DecimalVersion) (t : BumpTier) (m : Nat)
    (hm : m ≤ cur.major) :
    bumpDecimalVersion cur t (some m) = bumpDecimalVersion cur t none := by
  cases t <;> simp only [bumpDecimalVersion] <;> split_ifs <;> first | rfl | omega

/-- A commit without `!setver` whose message carries an explicit tier tag,
and whose README major does not exceed the current major, bumps by exactly
that tier. -/
theorem trackStep_tagged (llm : String → String → BumpTier)
    (cur : DecimalVersion) (c : CommitSummary) (t : BumpTier)
    (hset : extractSetVersion c.message = none)
    (hde : decideTierFromMessage c.message = some t)
    (hm : (parseDecimalVersion c.version).major ≤ cur.major) :
    trackStep llm cur c =
      (bumpDecimalVersion cur t none,
        { c with version := formatDecimalVersion (bumpDecimalVersion cur t none) }) := by
  simp only [trackStep, hset, hde]
  split_ifs with h
  · rw [bump_forced_le cur t _ hm]
  · rfl

/-- C10: for every commit message containing a parsable `!setver` directive,
both the tracking step (lines 631-637) and the replay step (lines 805-815)
set the running version to exactly the parsed value and record its formatted
form — the result does not mention the classifier `llm`, the keyword
classifier, or the current version, so the directive wins over every other
marker (including `!skip`) and applies even when the parsed value is lower
than the current version. -/
theorem c10_setver_overrides (llm : String → String → BumpTier)
    (cur : DecimalVersion) (c : CommitSummary) (v : String) (it : GHItem)
    (diff : String) (commitMajor : Nat)
    (hc : extractSetVersion c.message = some v)
    (hi : extractSetVersion it.message = some v) :
    trackStep llm cur c =
      (parseDecimalVersion v,
        { c with version := formatDecimalVersion (parseDecimalVersion v) })
    ∧ replayStep llm cur it diff commitMajor =
      (parseDecimalVersion v,
        ⟨it.sha, it.author, it.date, it.message, it.url, diff,
          formatDecimalVersion (parseDecimalVersion v)⟩) := by
  constructor
  · simp only [trackStep, hc]
  · simp only [replayStep, hi]

/-- C10 witness: a message that carries both `!skip` and `!setver: 1.5`,
an adversarial classifier that always answers `major`, and a current version
`9.87` higher than the directive: the step still sets `1.5`. -/
theorem c10_setver_overrides_witness :
    extractSetVersion "!skip !setver: 1.5" = some "1.5"
    ∧ hasSkipMarker "!skip !setver: 1.5" = true
    ∧ trackStep (fun _ _ => BumpTier.major) ⟨9, 8, 7, 0, 0, 0, 0⟩
        ⟨"s", "a", "d", "!skip !setver: 1.5", "u", "", "0.00"⟩ =
      (parseDecimalVersion "1.5",
        ⟨"s", "a", "d", "!skip !setver: 1.5", "u", "",
          formatDecimalVersion (parseDecimalVersion "1.5")⟩)
    ∧ replayStep (fun _ _ => BumpTier.major) ⟨9, 8, 7, 0, 0, 0, 0⟩
        ⟨"s", "a", "d", "!skip !setver: 1.5", "u"⟩ "diff" 3 =
      (parseDecimalVersion "1.5",
        ⟨"s", "a", "d", "!skip !setver: 1.5", "u", "diff",
          formatDecimalVersion (parseDecimalVersion "1.5")⟩) :=
  ⟨by decide, by decide,
    (c10_setver_overrides (fun _ _ => BumpTier.major) ⟨9, 8, 7, 0, 0, 0, 0⟩
        ⟨"s", "a", "d", "!skip !setver: 1.5", "u", "", "0.00"⟩ "1.5"
        ⟨"s", "a", "d", "!skip !setver: 1.5", "u"⟩ "diff" 3
        (by decide) (by decide)).1,
    (c10_setver_overrides (fun _ _ => BumpTier.major) ⟨9, 8, 7, 0, 0, 0, 0⟩
        ⟨"s", "a", "d", "!skip !setver: 1.5", "u", "", "0.00"⟩ "1.5"
        ⟨"s", "a", "d", "!skip !setver: 1.5", "u"⟩ "diff" 3
        (by decide) (by decide)).2⟩

/-- C3 counterexample: from checkpoint version `"2.3"`, the commits
`"!fix: patch"` then `"!feat: add X"` are recorded as `["2.31", "2.40"]`
(fix targets digit index 1, feat digit index 0, and formatting always shows
two digits), not `["2.4", "2.41"]` as the claim states. -/
theorem c3_scenario_concrete :
    (trackProcess (fun _ _ => BumpTier.tiny) (parseDecimalVersion "2.3")
        [⟨"s1", "a", "d1", "!fix: patch", "u1", "", "0.00"⟩,
          ⟨"s2", "a", "d2", "!feat: add X", "u2", "", "0.00"⟩]).map
        (fun c => c.version) = ["2.31", "2.40"]
    ∧ (["2.31", "2.40"] : List String) ≠ ["2.4", "2.41"] := by
  constructor
  · decide
  · decide

/-- C3 (amended): given a checkpoint whose last recorded version is `"2.3"`
and exactly two new commits with messages `"!fix: patch"` and
`"!feat: add X"` in that order (their snapshot README majors not exceeding
2, so no major resync interferes), the tracking loop records the versions
`["2.31", "2.40"]`, for any external classifier. -/
theorem c3_scenario_versions (llm : String → String → BumpTier)
    (c1 c2 : CommitSummary)
    (h1 : c1.message = "!fix: patch") (h2 : c2.message = "!feat: add X")
    (hm1 : (parseDecimalVersion c1.version).major ≤ 2)
    (hm2 : (parseDecimalVersion c2.version).major ≤ 2) :
    (trackProcess llm (parseDecimalVersion "2.3") [c1, c2]).map
      (fun c => c.version) = ["2.31", "2.40"] := by
  have hp : parseDecimalVersion "2.3" = ⟨2, 3, 0, 0, 0, 0, 0⟩ := by decide
  have hs1 : trackStep llm (parseDecimalVersion "2.3") c1 =
      (bumpDecimalVersion (parseDecimalVersion "2.3") BumpTier.fix none,
        { c1 with version := formatDecimalVersion (bumpDecimalVersion (parseDecimalVersion "2.3") BumpTier.fix none) }) :=
    trackStep_tagged llm _ c1 BumpTier.fix
      (by rw [h1]; decide) (by rw [h1]; decide) (by rw [hp]; exact hm1)
  have hb1 : bumpDecimalVersion (parseDecimalVersion "2.3") BumpTier.fix none =
      ⟨2, 3, 1, 0, 0, 0, 0⟩ := by decide
  have hs2 : trackStep llm (⟨2, 3, 1, 0, 0, 0, 0⟩ : DecimalVersion) c2 =
      (bumpDecimalVersion ⟨2, 3, 1, 0, 0, 0, 0⟩ BumpTier.feat none,
        { c2 with version := formatDecimalVersion (bumpDecimalVersion ⟨2, 3, 1, 0, 0, 0, 0⟩ BumpTier.feat none) }) :=
    trackStep_tagged llm _ c2 BumpTier.feat
      (by rw [h2]; decide) (by rw [h2]; decide) hm2
  have hb2 : bumpDecimalVersion (⟨2, 3, 1, 0, 0, 0, 0⟩ : DecimalVersion)
      BumpTier.feat none = ⟨2, 4, 0, 0, 0, 0, 0⟩ := by decide
  simp only [trackProcess, hs1, hb1, hs2, hb2, List.map]
  decide

/-- C3 witness: the amended scenario at fully concrete commits. -/
theorem c3_scenario_versions_witness :
    (trackProcess (fun _ _ => BumpTier.major) (parseDecimalVersion "2.3")
        [⟨"s1", "a", "d1", "!fix: patch", "u1", "", "2.00"⟩,
          ⟨"s2", "a", "d2", "!feat: add X", "u2", "", "1.00"⟩]).map
      (fun c => c.version) = ["2.31", "2.40"] :=
  c3_scenario_versions (fun _ _ => BumpTier.major)
    ⟨"s1", "a", "d1", "!fix: patch", "u1", "", "2.00"⟩
    ⟨"s2", "a", "d2", "!feat: add X", "u2", "", "1.00"⟩
    rfl rfl (by decide) (by decide)

/-- `takeWhile` passes over a leading block that wholly satisfies the
predicate. -/
theorem takeWhile_all_append (p : Char → Bool) (l1 l2 : List Char)
    (h : l1.all p = true) :
    (l1 ++ l2).takeWhile p = l1 ++ l2.takeWhile p := by
  induction l1 with
  | nil => simp
  | cons a l ih =>
    simp only [List.all_cons, Bool.and_eq_true] at h
    simp [List.takeWhile, h.1, ih h.2]

/-- `dropWhile` passes over a leading block that wholly satisfies the
predicate. -/
theorem dropWhile_all_append (p : Char → Bool) (l1 l2 : List Char)
    (h : l1.all p = true) :
    (l1 ++ l2).dropWhile p = l2.dropWhile p := by
  induction l1 with
  | nil => simp
  | cons a l ih =>
    simp only [List.all_cons, Bool.and_eq_true] at h
    simp [List.dropWhile, h.1, ih h.2]

/-- On a well-formed `<digits>.<digits>` character list, `versionShape`
returns exactly the integer part and the fraction part. -/
theorem versionShape_append (m x : List Char) (hm : m ≠ [])
    (hmd : m.all Char.isDigit = true) (hx : x.all Char.isDigit = true)
    (hxe : x ≠ []) :
    versionShape (m ++ '.' :: x) = some (m, x) := by
  have hdot : Char.isDigit '.' = false := by decide
  have ht : (m ++ '.' :: x).takeWhile Char.isDigit = m := by
    rw [takeWhile_all_append Char.isDigit m ('.' :: x) hmd]
    simp [List.takeWhile, hdot]
  have hd : (m ++ '.' :: x).dropWhile Char.isDigit = '.' :: x := by
    rw [dropWhile_all_append Char.isDigit m ('.' :: x) hmd]
    simp [List.dropWhile, hdot]
  simp only [versionShape, ht, hd]
  have hie : m.isEmpty = false := by
    cases m with
    | nil => exact absurd rfl hm
    | cons a l => rfl
  have hxie : x.isEmpty = false := by
    cases x with
    | nil => exact absurd rfl hxe
    | cons a l => rfl
  simp [hie, hxie, hx]

/-- Right-padding the digit list with zeros up to the fixed width does not
change the padded six-digit window. -/
theorem pad_window_eq (a : List Nat) :
    (a ++ List.replicate (6 - a.length) 0).take 6 ++
        List.replicate (6 - ((a ++ List.replicate (6 - a.length) 0).take 6).length) 0 =
      a.take 6 ++ List.replicate (6 - (a.take 6).length) 0 := by
  by_cases h : a.length ≤ 6
  · have hlen : (a ++ List.replicate (6 - a.length) 0).length = 6 := by
      simp [List.length_append, List.length_replicate]
      omega
    have h1 : (a ++ List.replicate (6 - a.length) 0).take 6 =
        a ++ List.replicate (6 - a.length) 0 := by
      apply List.take_of_length_le
      omega
    have h2 : a.take 6 = a := List.take_of_length_le h
    rw [h1, h2, hlen]
    simp
  · have hz : 6 - a.length = 0 := by omega
    rw [hz]
    simp

/-- C4: `parseDecimalVersion` is a total function that never signals an
error: an input whose trimmed form does not match `<uint>` or
`<uint>.<digits>` parses to `major = 0` with all six digits zero; fractional
digits beyond the fixed six-digit width are ignored; and fewer digits parse
the same as their right-zero-padded completion. -/
theorem c4_parse_total_and_degrading (s : String) (m f g : List Char) :
    (versionShape (trimChars s.toList) = none →
      parseDecimalVersion s = ⟨0, 0, 0, 0, 0, 0, 0⟩)
    ∧ (m ≠ [] → m.all Char.isDigit = true → f.all Char.isDigit = true →
        g.all Char.isDigit = true → f.length = 6 →
        parseCore (m ++ '.' :: (f ++ g)) = parseCore (m ++ '.' :: f))
    ∧ (m ≠ [] → m.all Char.isDigit = true → f.all Char.isDigit = true →
        f ≠ [] →
        parseCore (m ++ '.' :: (f ++ List.replicate (6 - f.length) '0')) =
          parseCore (m ++ '.' :: f)) := by
  refine ⟨?_, ?_, ?_⟩
  · intro h
    simp only [String.toList] at h
    simp [parseDecimalVersion, parseCore, h]
  · intro hm hmd hf hg hf6
    have hfg : (f ++ g).all Char.isDigit = true := by
      simp [List.all_append, hf, hg]
    have hfgne : f ++ g ≠ [] := by
      cases f with
      | nil => simp at hf6
      | cons a l => simp
    have hfne : f ≠ [] := by
      cases f with
      | nil => simp at hf6
      | cons a l => simp
    have hv1 := versionShape_append m (f ++ g) hm hmd hfg hfgne
    have hv2 := versionShape_append m f hm hmd hf hfne
    have htake : ((f ++ g).map charDigit).take 6 = (f.map charDigit).take 6 := by
      have hmap : (f ++ g).map charDigit = f.map charDigit ++ g.map charDigit :=
        List.map_append charDigit f g
      have hlenf : (f.map charDigit).length = 6 := by
        rw [List.length_map]
        exact hf6
      rw [hmap]
      have h6 := List.take_left (f.map charDigit) (g.map charDigit)
      rw [hlenf] at h6
      rw [h6]
      exact (List.take_of_length_le (by omega)).symm
    simp only [parseCore, hv1, hv2, htake]
  · intro hm hmd hf hfne
    have hpadd : (List.replicate (6 - f.length) '0').all Char.isDigit = true := by
      simp [List.all_eq_true]
    have hfp : (f ++ List.replicate (6 - f.length) '0').all Char.isDigit = true := by
      simp [List.all_append, hf, hpadd]
    have hfpne : f ++ List.replicate (6 - f.length) '0' ≠ [] := by
      cases f with
      | nil => exact absurd rfl hfne
      | cons a l => simp
    have hv1 := versionShape_append m (f ++ List.replicate (6 - f.length) '0')
      hm hmd hfp hfpne
    have hv2 := versionShape_append m f hm hmd hf hfne
    have hmap : (f ++ List.replicate (6 - f.length) '0').map charDigit =
        f.map charDigit ++ List.replicate (6 - (f.map charDigit).length) 0 := by
      rw [List.map_append, List.map_replicate, List.length_map]
      have h0 : charDigit '0' = 0 := by decide
      rw [h0]
    have hw := pad_window_eq (f.map charDigit)
    simp only [parseCore, hv1, hv2, hmap, hw]

/-- C4 witness: the parse theorem applied at the non-matching input
`"not-a-version"`, at a ten-digit fraction truncated to six, and at a short
fraction and its zero-padding. -/
theorem c4_parse_total_and_degrading_witness :
    parseDecimalVersion "not-a-version" = ⟨0, 0, 0, 0, 0, 0, 0⟩
    ∧ parseCore ("12".toList ++ '.' :: ("234567".toList ++ "8901".toList)) =
        parseCore ("12".toList ++ '.' :: "234567".toList)
    ∧ parseCore ("7".toList ++ '.' :: ("45".toList ++ List.replicate (6 - "45".toList.length) '0')) =
        parseCore ("7".toList ++ '.' :: "45".toList) :=
  ⟨(c4_parse_total_and_degrading "not-a-version" [] [] []).1 (by decide),
    (c4_parse_total_and_degrading "" "12".toList "234567".toList "8901".toList).2.1
      (by decide) (by decide) (by decide) (by decide) (by decide),
    (c4_parse_total_and_degrading "" "7".toList "45".toList []).2.2
      (by decide) (by decide) (by decide) (by decide)⟩

/-- The host's answer to one page request of the commit-list endpoint: a
non-OK response, or an OK response carrying the page's (already normalised)
commit items together with whether the `Link` header advertises a `next`
page (`parseLinkHeader`, lines 192-206). -/
inductive PageResp where
  | fail
  | ok (items : List GHItem) (hasNext : Bool)

/-- `pageItems.findIndex(c => c.sha === stopSha)` (line 277), with `none`
for the `-1` of a missed search. -/
def findStopIdx (stopSha : String) (items : List GHItem) : Option Nat :=
  items.findIdx? (fun c => c.sha == stopSha)

/-- The pagination loop of `fetchCommitItemsUntil` (lines 244-302).  The
source iterates `page = 1, 2, ...` and stops after page 50; here `fuel`
counts the remaining page budget (`fuel = 51 - page` along the real run, so
the `fuel = 0` guard below is the source's `page > 50` check) and the second
component instruments the number of page fetches performed.  A failed fetch,
an empty page, a page containing `stopSha` (kept inclusively), and a page
without a `next` link all return what was gathered so far. -/
def goUntil (host : Nat → PageResp) (stopSha : String) :
    Nat → Nat → List GHItem → Nat → List GHItem × Nat
  | 0, _, acc, cnt => (acc, cnt)
  | fuel + 1, page, acc, cnt =>
    match host page with
    | .fail => (acc, cnt + 1)
    | .ok items hasNext =>
      if items.isEmpty then (acc, cnt + 1)
      else
        match (if stopSha = "" then none else findStopIdx stopSha items) with
        | some i => (acc ++ items.take (i + 1), cnt + 1)
        | none =>
          if !hasNext then (acc ++ items, cnt + 1)
          else if fuel = 0 then (acc ++ items, cnt + 1)
          else goUntil host stopSha fuel (page + 1) (acc ++ items) (cnt + 1)

/-- `fetchCommitItemsUntil` (lines 244-302): start at page 1 with an empty
accumulator and a 50-page budget; returns the gathered items and the number
of pages fetched. -/
def fetchCommitItemsUntil (host : Nat → PageResp) (stopSha : String) :
    List GHItem × Nat :=
  goUntil host stopSha 50 1 [] 0

/-- The pagination loop of `fetchAllCommitItems` (lines 304-348): as
`goUntil` but with no stop SHA and a 500-page budget. -/
def goAll (host : Nat → PageResp) :
    Nat → Nat → List GHItem → Nat → List GHItem × Nat
  | 0, _, acc, cnt => (acc, cnt)
  | fuel + 1, page, acc, cnt =>
    match host page with
    | .fail => (acc, cnt + 1)
    | .ok items hasNext =>
      if items.isEmpty then (acc, cnt + 1)
      else
        if !hasNext then (acc ++ items, cnt + 1)
        else if fuel = 0 then (acc ++ items, cnt + 1)
        else goAll host fuel (page + 1) (acc ++ items) (cnt + 1)

/-- `fetchAllCommitItems` (lines 304-348). -/
def fetchAllCommitItems (host : Nat → PageResp) : List GHItem × Nat :=
  goAll host 500 1 [] 0

/-- The incremental pagination loop performs at most `fuel` further fetches. -/
theorem goUntil_count_le (host : Nat → PageResp) (stop : String) :
    ∀ fuel page acc cnt, (goUntil host stop fuel page acc cnt).2 ≤ cnt + fuel := by
  intro fuel
  induction fuel with
  | zero =>
    intro page acc cnt
    simp [goUntil]
  | succ n ih =>
    intro page acc cnt
    rw [goUntil]
    cases h : host page with
    | fail => simp
    | ok items hasNext =>
      by_cases he : items.isEmpty
      · simp [he]
      · simp only [he, if_false, Bool.false_eq_true]
        cases hs : (if stop = "" then none else findStopIdx stop items) with
        | some i => simp
        | none =>
          by_cases hn : hasNext
          · simp only [hn, Bool.not_true, if_false, Bool.false_eq_true]
            by_cases h0 : n = 0
            · simp [h0]
            · simp only [h0, if_false]
              have := ih (page + 1) (acc ++ items) (cnt + 1)
              omega
          · simp only [Bool.not_eq_true] at hn
            simp [hn]

/-- The full-history pagination loop performs at most `fuel` further fetches. -/
theorem goAll_count_le (host : Nat → PageResp) :
    ∀ fuel page acc cnt, (goAll host fuel page acc cnt).2 ≤ cnt + fuel := by
  intro fuel
  induction fuel with
  | zero =>
    intro page acc cnt
    simp [goAll]
  | succ n ih =>
    intro page acc cnt
    rw [goAll]
    cases h : host page with
    | fail => simp
    | ok items hasNext =>
      by_cases he : items.isEmpty
      · simp [he]
      · simp only [he, if_false, Bool.false_eq_true]
        by_cases hn : hasNext
        · simp only [hn, Bool.not_true, if_false, Bool.false_eq_true]
          by_cases h0 : n = 0
          · simp [h0]
          · simp only [h0, if_false]
            have := ih (page + 1) (acc ++ items) (cnt + 1)
            omega
        · simp only [Bool.not_eq_true] at hn
          simp [hn]

/-- C6: paginated commit fetching terminates for every sequence of host
responses.  The incremental fetch consults at most 50 pages and the
full-history fetch at most 500; from any loop state with budget left, a page
containing `stopSha` ends the run immediately with that commit included
(`items.take (i + 1)`), an empty page ends the run with what was gathered,
and a non-empty page without a successor link ends the run after appending
that page — the loop never runs unbounded. -/
theorem c6_pagination_terminates (host : Nat → PageResp) (stop : String) :
    (fetchCommitItemsUntil host stop).2 ≤ 50
    ∧ (fetchAllCommitItems host).2 ≤ 500
    ∧ (∀ fuel page acc cnt items hasNext i, host page = .ok items hasNext →
        stop ≠ "" → findStopIdx stop items = some i →
        goUntil host stop (fuel + 1) page acc cnt = (acc ++ items.take (i + 1), cnt + 1))
    ∧ (∀ fuel page acc cnt hasNext, host page = .ok [] hasNext →
        goUntil host stop (fuel + 1) page acc cnt = (acc, cnt + 1))
    ∧ (∀ fuel page acc cnt items, host page = .ok items false → items ≠ [] →
        (stop = "" ∨ findStopIdx stop items = none) →
        goUntil host stop (fuel + 1) page acc cnt = (acc ++ items, cnt + 1)) := by
  refine ⟨?_, ?_, ?_, ?_, ?_⟩
  · have := goUntil_count_le host stop 50 1 [] 0
    simpa [fetchCommitItemsUntil] using this
  · have := goAll_count_le host 500 1 [] 0
    simpa [fetchAllCommitItems] using this
  · intro fuel page acc cnt items hasNext i hh hne hfind
    rw [goUntil, hh]
    have hie : items.isEmpty = false := by
      cases items with
      | nil => simp [findStopIdx] at hfind
      | cons a l => rfl
    simp [hie, hne, hfind]
  · intro fuel page acc cnt hasNext hh
    rw [goUntil, hh]
    simp
  · intro fuel page acc cnt items hh hne hnostop
    rw [goUntil, hh]
    have hie : items.isEmpty = false := by
      cases items with
      | nil => exact absurd rfl hne
      | cons a l => rfl
    rcases hnostop with h | h
    · simp [hie, h]
    · by_cases he : stop = ""
      · simp [hie, he]
      · simp [hie, he, h]

/-- C6 witness: the termination theorem applied to a two-page host where the
stop SHA sits in the middle of page 1. -/
theorem c6_pagination_terminates_witness :
    (fetchCommitItemsUntil
        (fun _ => PageResp.ok [⟨"a", "", "", "", ""⟩, ⟨"b", "", "", "", ""⟩,
          ⟨"c", "", "", "", ""⟩] true) "b").2 ≤ 50
    ∧ goUntil
        (fun _ => PageResp.ok [⟨"a", "", "", "", ""⟩, ⟨"b", "", "", "", ""⟩,
          ⟨"c", "", "", "", ""⟩] true) "b" 50 1 [] 0 =
      ([⟨"a", "", "", "", ""⟩, ⟨"b", "", "", "", ""⟩], 1) :=
  ⟨(c6_pagination_terminates
      (fun _ => PageResp.ok [⟨"a", "", "", "", ""⟩, ⟨"b", "", "", "", ""⟩,
        ⟨"c", "", "", "", ""⟩] true) "b").1,
    by
      have h := (c6_pagination_terminates
        (fun _ => PageResp.ok [⟨"a", "", "", "", ""⟩, ⟨"b", "", "", "", ""⟩,
          ⟨"c", "", "", "", ""⟩] true) "b").2.2.1 49 1 [] 0
        [⟨"a", "", "", "", ""⟩, ⟨"b", "", "", "", ""⟩, ⟨"c", "", "", "", ""⟩]
        true 1 rfl (by decide) (by decide)
      simpa using h⟩

/-- A tracking checkpoint: the `sha`, `date` and `version` of the last commit
of the most recent history file for the repository (lines 577-588); `none`
models the absence of a usable history file, or one with no commits. -/
structure Checkpoint where
  sha : String
  date : String
  version : String
deriving DecidableEq, Repr

/-- The summary built by `fetchCommits` for one fetched item (lines 931-950):
the diff and the README major at the commit's own SHA are host reads,
modelled as the functions `diffOf` and `majorAt`; the `version` field carries
the `"<major>.00"` placeholder of line 948. -/
def summariseItem (diffOf : String → String) (majorAt : String → Nat)
    (it : GHItem) : CommitSummary :=
  ⟨it.sha, it.author, it.date, it.message, it.url, diffOf it.sha,
    Nat.repr (majorAt it.sha) ++ ".00"⟩

/-- `lastSha` of `getCommits` (lines 579-586): the checkpointed SHA, or `""`
when there is no checkpoint. -/
def checkpointSha (cp : Option Checkpoint) : String :=
  match cp with
  | some c => c.sha
  | none => ""

/-- `baseVersionStr ?? baseFromReadme` of `getCommits` (lines 581-594): the
checkpointed version string, or `"<readmeMajor>.00"` without a checkpoint. -/
def checkpointBaseVersion (cp : Option Checkpoint) (readmeMajor : Nat) : String :=
  match cp with
  | some c => c.version
  | none => Nat.repr readmeMajor ++ ".00"

/-- The `commits` variable of `getCommits` (lines 604-605): the fetched
window summarised and reversed to chronological (oldest-first) order. -/
def windowOf (cp : Option Checkpoint) (host : Nat → PageResp)
    (diffOf : String → String) (majorAt : String → Nat) : List CommitSummary :=
  ((fetchCommitItemsUntil host (checkpointSha cp)).1.map
    (summariseItem diffOf majorAt)).reverse

/-- `newCommits` of `getCommits` (lines 607-618): everything after the
checkpointed SHA in the chronological window (the whole window when there is
no checkpoint or the SHA is not found, matching `lastIdx = -1`). -/
def newCommitsOf (cp : Option Checkpoint) (host : Nat → PageResp)
    (diffOf : String → String) (majorAt : String → Nat) : List CommitSummary :=
  let commits := windowOf cp host diffOf majorAt
  let lastIdx :=
    if checkpointSha cp = "" then none
    else commits.findIdx? (fun c => c.sha == checkpointSha cp)
  let startIdx := match lastIdx with | some i => i + 1 | none => 0
  commits.drop startIdx

/-- The per-repository body of `getCommits` (lines 576-663) with the network
boundary abstracted: `host` answers the paginated commit-list requests,
`diffOf` / `majorAt` the per-commit diff and README-major reads, `llm` the
external classifier, and `readmeMajor` the tip README major used for the
base version when there is no checkpoint.  Returns `none` when the run
terminates without writing a ledger file ("No new commits detected",
lines 620-623) and `some out` when it writes a new file containing exactly
the commits `out` (lines 649-662). -/
def getCommitsCore (cp : Option Checkpoint) (readmeMajor : Nat)
    (host : Nat → PageResp) (diffOf : String → String)
    (majorAt : String → Nat) (llm : String → String → BumpTier) :
    Option (List CommitSummary) :=
  if (newCommitsOf cp host diffOf majorAt).isEmpty then none
  else some (trackProcess llm
    (parseDecimalVersion (checkpointBaseVersion cp readmeMajor))
    (newCommitsOf cp host diffOf majorAt))

/-- The pagination loop only ever appends to its accumulator. -/
theorem goUntil_acc_extends (host : Nat → PageResp) (stop : String) :
    ∀ fuel page acc cnt, ∃ t, (goUntil host stop fuel page acc cnt).1 = acc ++ t := by
  intro fuel
  induction fuel with
  | zero =>
    intro page acc cnt
    exact ⟨[], by simp [goUntil]⟩
  | succ n ih =>
    intro page acc cnt
    rw [goUntil]
    cases h : host page with
    | fail => exact ⟨[], by simp⟩
    | ok items hasNext =>
      by_cases he : items.isEmpty
      · exact ⟨[], by simp [he]⟩
      · simp only [he, if_false, Bool.false_eq_true]
        cases hs : (if stop = "" then none else findStopIdx stop items) with
        | some i => exact ⟨items.take (i + 1), rfl⟩
        | none =>
          by_cases hn : hasNext
          · by_cases h0 : n = 0
            · exact ⟨items, by simp [hn, h0]⟩
            · obtain ⟨t, ht⟩ := ih (page + 1) (acc ++ items) (cnt + 1)
              refine ⟨items ++ t, ?_⟩
              simp only [hn, Bool.not_true, if_false, h0, Bool.false_eq_true]
              rw [ht, List.append_assoc]
          · simp only [Bool.not_eq_true] at hn
            exact ⟨items, by simp [hn]⟩

/-- When page 1 is non-empty, the fetched list starts with page 1's head
commit, for every stop SHA. -/
theorem fetchCommitItemsUntil_head (host : Nat → PageResp) (stop : String)
    (it : GHItem) (rest : List GHItem) (nx : Bool)
    (hh : host 1 = PageResp.ok (it :: rest) nx) :
    ∃ t, (fetchCommitItemsUntil host stop).1 = it :: t := by
  rw [fetchCommitItemsUntil, show (50 : Nat) = 49 + 1 from rfl, goUntil, hh]
  have hie : (it :: rest).isEmpty = false := rfl
  simp only [hie, if_false, Bool.false_eq_true]
  cases hs : (if stop = "" then none else findStopIdx stop (it :: rest)) with
  | some i =>
    simp only [hs]
    exact ⟨rest.take i, by simp [List.take]⟩
  | none =>
    simp only [hs]
    by_cases hn : nx
    · simp only [hn, Bool.not_true, Bool.false_eq_true, if_false]
      rw [if_neg (by omega : ¬(49 : Nat) = 0)]
      obtain ⟨t, ht⟩ := goUntil_acc_extends host stop 49 (1 + 1) ([] ++ it :: rest) (0 + 1)
      refine ⟨rest ++ t, ?_⟩
      rw [ht]
      simp
    · simp only [Bool.not_eq_true] at hn
      simp [hn]

/-- When page 1 fails or is empty, the fetched list is empty. -/
theorem fetchCommitItemsUntil_empty (host : Nat → PageResp) (stop : String)
    (h : host 1 = PageResp.fail ∨ ∃ nx, host 1 = PageResp.ok [] nx) :
    (fetchCommitItemsUntil host stop).1 = [] := by
  rcases h with hh | ⟨nx, hh⟩ <;>
    rw [fetchCommitItemsUntil, show (50 : Nat) = 49 + 1 from rfl, goUntil, hh] <;> simp

/-- A tracking step never changes the commit's SHA. -/
theorem trackStep_sha (llm : String → String → BumpTier) (cur : DecimalVersion)
    (c : CommitSummary) : ((trackStep llm cur c).2).sha = c.sha := by
  simp only [trackStep]
  cases h : extractSetVersion c.message <;> rfl

/-- The tracking loop records exactly the input commits' SHAs, in order. -/
theorem trackProcess_map_sha (llm : String → String → BumpTier) :
    ∀ (l : List CommitSummary) (cur : DecimalVersion),
      (trackProcess llm cur l).map (fun c => c.sha) = l.map (fun c => c.sha) := by
  intro l
  induction l with
  | nil => intro cur; rfl
  | cons c rest ih =>
    intro cur
    simp [trackProcess, trackStep_sha, ih]

/-- Dropping a prefix does not change a non-empty suffix's last element. -/
theorem getLast?_drop_of_ne_nil {α : Type} (l : List α) (n : Nat)
    (h : l.drop n ≠ []) : (l.drop n).getLast? = l.getLast? := by
  conv_rhs => rw [← List.take_append_drop n l]
  rw [List.getLast?_append]
  cases hd : (l.drop n).getLast? with
  | none =>
    exfalso
    exact h (List.getLast?_eq_none_iff.mp hd)
  | some x => rfl

/-- When the fetch returned `it :: t` and the new-commit suffix is
non-empty, its last element is the summary of `it` (the newest commit). -/
theorem newCommitsOf_getLast (cp : Option Checkpoint) (host : Nat → PageResp)
    (diffOf : String → String) (majorAt : String → Nat) (it : GHItem)
    (t : List GHItem)
    (ht : (fetchCommitItemsUntil host (checkpointSha cp)).1 = it :: t)
    (hne : newCommitsOf cp host diffOf majorAt ≠ []) :
    (newCommitsOf cp host diffOf majorAt).getLast? =
      some (summariseItem diffOf majorAt it) := by
  have hw : (windowOf cp host diffOf majorAt).getLast? =
      some (summariseItem diffOf majorAt it) := by
    rw [windowOf, ht, List.getLast?_reverse]
    rfl
  rw [newCommitsOf] at hne ⊢
  rw [getLast?_drop_of_ne_nil _ _ hne]
  exact hw

/-- If the tracking run wrote a file, then page 1 of the host was non-empty
and the last commit written carries the SHA of the newest fetched commit —
the head of page 1. -/
theorem getCommitsCore_some_shape (cp : Option Checkpoint) (rm : Nat)
    (host : Nat → PageResp) (diffOf : String → String) (majorAt : String → Nat)
    (llm : String → String → BumpTier) (cs : List CommitSummary)
    (h : getCommitsCore cp rm host diffOf majorAt llm = some cs) :
    ∃ it rest nx, host 1 = PageResp.ok (it :: rest) nx ∧
      cs.getLast?.map (fun x => x.sha) = some it.sha := by
  by_cases hemp : (newCommitsOf cp host diffOf majorAt).isEmpty
  · exfalso
    simp [getCommitsCore, hemp] at h
  · simp only [getCommitsCore, hemp, if_false, Bool.false_eq_true,
      Option.some.injEq] at h
    cases hh : host 1 with
    | fail =>
      exfalso
      have hf := fetchCommitItemsUntil_empty host (checkpointSha cp) (Or.inl hh)
      have : newCommitsOf cp host diffOf majorAt = [] := by
        rw [newCommitsOf, windowOf, hf]
        simp
      rw [this] at hemp
      exact hemp rfl
    | ok items nx =>
      cases items with
      | nil =>
        exfalso
        have hf := fetchCommitItemsUntil_empty host (checkpointSha cp)
          (Or.inr ⟨nx, hh⟩)
        have : newCommitsOf cp host diffOf majorAt = [] := by
          rw [newCommitsOf, windowOf, hf]
          simp
        rw [this] at hemp
        exact hemp rfl
      | cons it rest =>
        obtain ⟨t, ht⟩ := fetchCommitItemsUntil_head host (checkpointSha cp)
          it rest nx hh
        have hne : newCommitsOf cp host diffOf majorAt ≠ [] := by
          intro hnil
          rw [hnil] at hemp
          exact hemp rfl
        have hlast := newCommitsOf_getLast cp host diffOf majorAt it t ht hne
        refine ⟨it, rest, nx, rfl, ?_⟩
        calc cs.getLast?.map (fun x => x.sha)
            = (cs.map (fun x => x.sha)).getLast? := (List.getLast?_map _ cs).symm
          _ = ((newCommitsOf cp host diffOf majorAt).map (fun x => x.sha)).getLast? := by
              rw [← h, trackProcess_map_sha]
          _ = ((newCommitsOf cp host diffOf majorAt).getLast?).map (fun x => x.sha) :=
              List.getLast?_map _ _
          _ = some it.sha := by rw [hlast]; rfl

/-- If the newest commit on the host is the checkpointed commit itself (no
new commits since the checkpoint), the tracking run returns without writing:
the fetch stops at the checkpoint SHA inclusively within page 1, the
chronological window is the single checkpointed commit, and everything after
it is empty. -/
theorem getCommitsCore_stop_at_head (c : Checkpoint) (rm : Nat)
    (host : Nat → PageResp) (diffOf : String → String) (majorAt : String → Nat)
    (llm : String → String → BumpTier) (it : GHItem) (rest : List GHItem)
    (nx : Bool) (hsha : c.sha = it.sha) (hne : c.sha ≠ "")
    (hh : host 1 = PageResp.ok (it :: rest) nx) :
    getCommitsCore (some c) rm host diffOf majorAt llm = none := by
  have hcs : checkpointSha (some c) = c.sha := rfl
  have hfetch : fetchCommitItemsUntil host c.sha = ([it], 1) := by
    rw [fetchCommitItemsUntil, show (50 : Nat) = 49 + 1 from rfl, goUntil, hh]
    have hfind : findStopIdx c.sha (it :: rest) = some 0 := by
      simp [findStopIdx, List.findIdx?_cons, hsha]
    have hie : (it :: rest).isEmpty = false := rfl
    simp [hie, hne, hfind, List.take]
  have hnew : newCommitsOf (some c) host diffOf majorAt = [] := by
    rw [newCommitsOf, windowOf, hcs, hfetch]
    have hfind2 : List.findIdx? (fun s => s.sha == c.sha)
        ([summariseItem diffOf majorAt it].reverse) = some 0 := by
      simp [List.findIdx?_cons, summariseItem, hsha]
    simp only [List.map_cons, List.map_nil, hne, if_false, hfind2]
    rfl
  simp [getCommitsCore, hnew]

/-- C7: if a checkpoint exists and the fetched chronological window contains
no commits after the checkpointed SHA, the tracking run writes no ledger
file (returns `none`, leaving the ledger directory unchanged); consequently,
when a run has written a file and the host has gained no commits since (its
newest commit is still the last one recorded), a second run resuming from
that file's last commit again writes nothing. -/
theorem c7_resume_is_noop :
    (∀ (c : Checkpoint) (rm : Nat) (host : Nat → PageResp)
        (diffOf : String → String) (majorAt : String → Nat)
        (llm : String → String → BumpTier) (i : Nat),
      c.sha ≠ "" →
      (windowOf (some c) host diffOf majorAt).findIdx?
          (fun s => s.sha == c.sha) = some i →
      (windowOf (some c) host diffOf majorAt).drop (i + 1) = [] →
      getCommitsCore (some c) rm host diffOf majorAt llm = none)
    ∧ (∀ (cp : Option Checkpoint) (rm : Nat) (host : Nat → PageResp)
        (diffOf : String → String) (majorAt : String → Nat)
        (llm : String → String → BumpTier) (cs : List CommitSummary)
        (lastC : CommitSummary),
      getCommitsCore cp rm host diffOf majorAt llm = some cs →
      cs.getLast? = some lastC →
      lastC.sha ≠ "" →
      getCommitsCore (some ⟨lastC.sha, lastC.date, lastC.version⟩) rm host
        diffOf majorAt llm = none) := by
  constructor
  · intro c rm host diffOf majorAt llm i hne hfind hdrop
    have hcs : checkpointSha (some c) = c.sha := rfl
    have hnew : newCommitsOf (some c) host diffOf majorAt = [] := by
      rw [newCommitsOf]
      simp only [hcs, hne, if_false, hfind]
      exact hdrop
    simp [getCommitsCore, hnew]
  · intro cp rm host diffOf majorAt llm cs lastC h hlast hne
    obtain ⟨it, rest, nx, hh, hsha⟩ :=
      getCommitsCore_some_shape cp rm host diffOf majorAt llm cs h
    rw [hlast] at hsha
    have hsha2 : lastC.sha = it.sha := by simpa using hsha
    exact getCommitsCore_stop_at_head ⟨lastC.sha, lastC.date, lastC.version⟩
      rm host diffOf majorAt llm it rest nx hsha2 hne hh

/-- C7 witness: a host whose single page holds one commit `"a"` and no
successor link: the first run (no checkpoint) writes it with version
`0.000001`, and the second run resuming from that record writes nothing. -/
theorem c7_resume_is_noop_witness :
    getCommitsCore none 0
        (fun _ => PageResp.ok [⟨"a", "au", "d", "m", "u"⟩] false)
        (fun _ => "") (fun _ => 0) (fun _ _ => BumpTier.tiny) =
      some [⟨"a", "au", "d", "m", "u", "", "0.000001"⟩]
    ∧ getCommitsCore (some ⟨"a", "d", "0.000001"⟩) 0
        (fun _ => PageResp.ok [⟨"a", "au", "d", "m", "u"⟩] false)
        (fun _ => "") (fun _ => 0) (fun _ _ => BumpTier.tiny) = none :=
  ⟨by decide,
    c7_resume_is_noop.2 none 0
      (fun _ => PageResp.ok [⟨"a", "au", "d", "m", "u"⟩] false)
      (fun _ => "") (fun _ => 0) (fun _ _ => BumpTier.tiny)
      [⟨"a", "au", "d", "m", "u", "", "0.000001"⟩]
      ⟨"a", "au", "d", "m", "u", "", "0.000001"⟩
      (by decide) (by decide) (by decide)⟩

/-- A parsed ledger-file timestamp `YYYYMMDD-HHMMSS` (the six regex groups
of `bumpStampByOneSecond`, lines 135-149).  Comparison of the source's stamp
strings is JS lexicographic string order, which for the fixed-width digit
fields coincides with the numeric order of `sKey` below. -/
structure Stamp where
  y : Nat
  mo : Nat
  d : Nat
  hh : Nat
  mi : Nat
  ss : Nat
deriving DecidableEq, Repr

/-- Gregorian leap-year rule, as implemented by the JS `Date` normalisation
that `bumpStampByOneSecond` relies on. -/
def isLeap (y : Nat) : Bool :=
  (y % 4 = 0 && !(y % 100 = 0)) || y % 400 = 0

/-- Days in a month under the Gregorian calendar (JS `Date` normalisation). -/
def daysInMonth (y mo : Nat) : Nat :=
  if mo = 2 then (if isLeap y then 29 else 28)
  else if mo = 4 ∨ mo = 6 ∨ mo = 9 ∨ mo = 11 then 30
  else 31

/-- `bumpStampByOneSecond` (lines 135-149): re-parse the stamp, add one
second via `Date.setSeconds`, and re-format.  The JS `Date` normalises field
overflow (seconds into minutes, ..., days into months using the calendar,
months into years); that normalisation cascade is written out here.  The
model fixes a single UTC-like offset (the source uses the process-local
clock for both formatting and re-parsing, so a fixed offset cancels out;
DST jumps are outside the model). -/
def bumpStampByOneSecond (s : Stamp) : Stamp :=
  if s.ss + 1 ≤ 59 then { s with ss := s.ss + 1 }
  else if s.mi + 1 ≤ 59 then { s with ss := 0, mi := s.mi + 1 }
  else if s.hh + 1 ≤ 23 then { s with ss := 0, mi := 0, hh := s.hh + 1 }
  else if s.d + 1 ≤ daysInMonth s.y s.mo then
    { s with ss := 0, mi := 0, hh := 0, d := s.d + 1 }
  else if s.mo + 1 ≤ 12 then
    { y := s.y, mo := s.mo + 1, d := 1, hh := 0, mi := 0, ss := 0 }
  else { y := s.y + 1, mo := 1, d := 1, hh := 0, mi := 0, ss := 0 }

/-- Numeric reading of the stamp string `YYYYMMDD-HHMMSS`: for four-digit
years, JS string comparison of two stamps (`stamp <= lastStampUsed`,
line 715) is exactly numeric comparison of this key. -/
def sKey (s : Stamp) : Nat :=
  ((((s.y * 100 + s.mo) * 100 + s.d) * 100 + s.hh) * 100 + s.mi) * 100 + s.ss

/-- Calendar validity of a stamp's fields — the invariant satisfied by every
stamp `stampFromDate` can produce (lines 119-127). -/
def stampValidB (s : Stamp) : Bool :=
  decide (1 ≤ s.mo) && decide (s.mo ≤ 12) && decide (1 ≤ s.d) &&
    decide (s.d ≤ daysInMonth s.y s.mo) && decide (s.hh ≤ 23) &&
    decide (s.mi ≤ 59) && decide (s.ss ≤ 59)

/-- Every month has between 28 and 31 days. -/
theorem daysInMonth_bounds (y mo : Nat) :
    28 ≤ daysInMonth y mo ∧ daysInMonth y mo ≤ 31 := by
  unfold daysInMonth
  split_ifs <;> omega

/-- Adding one second strictly increases the stamp key on valid stamps. -/
theorem sKey_lt_bump (s : Stamp) (hv : stampValidB s = true) :
    sKey s < sKey (bumpStampByOneSecond s) := by
  obtain ⟨y, mo, d, hh, mi, ss⟩ := s
  simp only [stampValidB, Bool.and_eq_true, decide_eq_true_eq] at hv
  obtain ⟨⟨⟨⟨⟨⟨h1, h2⟩, h3⟩, h4⟩, h5⟩, h6⟩, h7⟩ := hv
  have hdm := daysInMonth_bounds y mo
  simp only [bumpStampByOneSecond, sKey]
  split_ifs <;> simp_all <;> omega

/-- Adding one second preserves calendar validity. -/
theorem stampValidB_bump (s : Stamp) (hv : stampValidB s = true) :
    stampValidB (bumpStampByOneSecond s) = true := by
  obtain ⟨y, mo, d, hh, mi, ss⟩ := s
  simp only [stampValidB, Bool.and_eq_true, decide_eq_true_eq] at hv
  obtain ⟨⟨⟨⟨⟨⟨h1, h2⟩, h3⟩, h4⟩, h5⟩, h6⟩, h7⟩ := hv
  have hdm := daysInMonth_bounds y mo
  have hdm2 := daysInMonth_bounds y (mo + 1)
  have hdm3 := daysInMonth_bounds (y + 1) 1
  simp only [bumpStampByOneSecond]
  split_ifs <;> simp only [stampValidB, Bool.and_eq_true, decide_eq_true_eq] <;>
    refine ⟨⟨⟨⟨⟨⟨?_, ?_⟩, ?_⟩, ?_⟩, ?_⟩, ?_⟩, ?_⟩ <;> simp_all <;> omega

/-- The collision loop of `flush` (lines 714-717):
`while (lastStampUsed !== null && stamp <= lastStampUsed) stamp = bump(stamp)`
— keep adding one second while the derived stamp is not strictly above the
previously used one.  Terminates because each bump strictly increases the
key of a valid stamp. -/
def resolveStamp (last : Stamp) (s : Stamp) (hv : stampValidB s = true) : Stamp :=
  if h : sKey s ≤ sKey last then
    resolveStamp last (bumpStampByOneSecond s) (stampValidB_bump s hv)
  else s
termination_by sKey last + 1 - sKey s
decreasing_by
  have hlt := sKey_lt_bump s hv
  omega

/-- The collision loop always lands strictly above the previous stamp. -/
theorem resolveStamp_gt (last : Stamp) :
    ∀ (n : Nat) (s : Stamp) (hv : stampValidB s = true),
      sKey last + 1 - sKey s ≤ n →
      sKey last < sKey (resolveStamp last s hv) := by
  intro n
  induction n with
  | zero =>
    intro s hv hle
    rw [resolveStamp]
    have h : ¬ sKey s ≤ sKey last := by omega
    rw [dif_neg h]
    omega
  | succ k ih =>
    intro s hv hle
    rw [resolveStamp]
    by_cases h : sKey s ≤ sKey last
    · rw [dif_pos h]
      have hlt := sKey_lt_bump s hv
      exact ih (bumpStampByOneSecond s) (stampValidB_bump s hv) (by omega)
    · rw [dif_neg h]
      omega

/-- The sequence of stamps actually used by successive flushes of
`rebuildAllHistory` (lines 708-742): each flush derives a stamp from the
last commit's date in its chunk (`stampFromIso`, the input list here) and
runs the collision loop against the previously used stamp (`lastStampUsed`,
the `Option Stamp` accumulator; `none` before the first flush). -/
def flushStampList : Option Stamp → (ds : List Stamp) →
    (∀ x ∈ ds, stampValidB x = true) → List Stamp
  | _, [], _ => []
  | last, d :: ds, h =>
    let u : Stamp :=
      match last with
      | none => d
      | some l => resolveStamp l d (h d (List.mem_cons_self d ds))
    u :: flushStampList (some u) ds (fun x hx => h x (List.mem_cons_of_mem d hx))

/-- From any already-used stamp, the remaining flushes form a strictly
increasing chain above it. -/
theorem flushStampList_chain (ds : List Stamp) :
    ∀ (u : Stamp) (h : ∀ x ∈ ds, stampValidB x = true),
      List.Chain (fun a b => sKey a < sKey b) u (flushStampList (some u) ds h) := by
  induction ds with
  | nil =>
    intro u h
    exact List.Chain.nil
  | cons d t ih =>
    intro u h
    rw [flushStampList]
    exact List.Chain.cons
      (resolveStamp_gt u (sKey u + 1 - sKey d) d (h d (List.mem_cons_self d t))
        (by omega))
      (ih _ _)

/-- C8: during a replay run the flushed ledger-file timestamps are strictly
increasing: each flush derives its stamp from the last commit's date in its
chunk and, while that stamp is less than or equal to the previously used
stamp, bumps it forward by one second, so the sequence of used stamps (and
hence the chunk filenames, whose sort key is the stamp) is strictly
increasing and collision-free even when many commits share a date. -/
theorem c8_flush_stamps_strictly_increasing (ds : List Stamp)
    (h : ∀ x ∈ ds, stampValidB x = true) :
    List.Chain' (fun a b => sKey a < sKey b) (flushStampList none ds h) := by
  cases ds with
  | nil => exact trivial
  | cons d t =>
    rw [flushStampList]
    exact flushStampList_chain t d _

/-- C8 witness: three chunks whose last commits share one date — the flush
stamps still come out strictly increasing. -/
theorem c8_flush_stamps_strictly_increasing_witness :
    List.Chain' (fun a b => sKey a < sKey b)
      (flushStampList none
        [⟨2024, 12, 31, 23, 59, 59⟩, ⟨2024, 12, 31, 23, 59, 59⟩,
          ⟨2024, 12, 31, 23, 59, 59⟩]
        (by decide)) :=
  c8_flush_stamps_strictly_increasing
    [⟨2024, 12, 31, 23, 59, 59⟩, ⟨2024, 12, 31, 23, 59, 59⟩,
      ⟨2024, 12, 31, 23, 59, 59⟩]
    (by decide)

end GhTracker
